import Mathlib

/-!
Verification of the trip-to-route map-matching core of the geotracker
backend (`src/server.js`).  The JavaScript number type is modelled by `ℝ`;
distances, which the code lets reach `Infinity` (empty polylines), are
modelled in `ℝ≥0∞` with `⊤` for `Infinity`.  Points `[lat, lng]` are pairs
`ℝ × ℝ`.  The storage collaborator (`Route.find`) is modelled by an
`Except StorageErr (List Route)` argument; a rejected promise is `.error`.
The final-point append in the sampler compares array objects by identity
in JS; distinct trip entries are distinct objects, which the embedding
renders as an index comparison.
-/

open scoped Classical ENNReal

namespace GeoTracker

/-- A `[lat, lng]` pair as the matcher consumes it. -/
abbrev Point : Type := ℝ × ℝ

/-- The stored bounding box of a route (`route.bbox` in the schema). -/
structure BBox where
  minLat : ℝ
  minLng : ℝ
  maxLat : ℝ
  maxLng : ℝ

/-- A stored reference route, as `Route.find({}).lean()` returns it. -/
structure Route where
  routeId : ℕ
  name : String
  polyline : List Point
  bbox : Option BBox

/-- The best-candidate record built by `matchTripToRoutes`. -/
structure Candidate where
  routeId : ℕ
  name : String
  score : ℝ
  avgDistanceMeters : ℝ≥0∞
  fractionWithin : ℝ

/-- The recognized option overrides; `none` means the field was absent and
the in-function default (`?? 60`, `?? 75`, `?? 400`) applies. -/
structure MatchOptsIn where
  sampleLimit : Option ℕ
  distThresholdMeters : Option ℝ
  maxDist : Option ℝ

/-- Calling `matchTripToRoutes(polyline)` with no options. -/
def defaultOptsIn : MatchOptsIn := ⟨none, none, none⟩

/-- A stored GPS fix; `createdAt` is the server-assigned timestamp in
milliseconds since the epoch (UTC). -/
structure GpsPoint where
  lat : ℝ
  lng : ℝ
  createdAt : ℕ

/-- Failure of the storage collaborator (a rejected `Route.find` promise). -/
inductive StorageErr where
  | unavailable : StorageErr

/- ===================== geometry ===================== -/

/-- `Math.atan2(y, x)`. -/
noncomputable def atan2 (y x : ℝ) : ℝ :=
  if 0 < x then Real.arctan (y / x)
  else if x < 0 then
    (if y < 0 then Real.arctan (y / x) - Real.pi else Real.arctan (y / x) + Real.pi)
  else if 0 < y then Real.pi / 2
  else if y < 0 then -(Real.pi / 2)
  else 0

/-- `distanceMeters(lat1, lon1, lat2, lon2)`: haversine great-circle
distance with Earth radius 6 371 000 m. -/
noncomputable def distanceMeters (lat1 lon1 lat2 lon2 : ℝ) : ℝ :=
  let dLat := (lat2 - lat1) * Real.pi / 180
  let dLon := (lon2 - lon1) * Real.pi / 180
  let a := Real.sin (dLat / 2) * Real.sin (dLat / 2) +
    Real.cos (lat1 * Real.pi / 180) * Real.cos (lat2 * Real.pi / 180) *
      Real.sin (dLon / 2) * Real.sin (dLon / 2)
  let c := 2 * atan2 (Real.sqrt a) (Real.sqrt (1 - a))
  6371000 * c

/-- The scalar projection parameter `t` of `pointToSegmentDistanceMeters`
(`v`, `w`, `p` converted to radians and treated as a flat plane). -/
noncomputable def segProjParam (p v w : Point) : ℝ :=
  let x1 := v.2 * Real.pi / 180; let y1 := v.1 * Real.pi / 180
  let x2 := w.2 * Real.pi / 180; let y2 := w.1 * Real.pi / 180
  let x3 := p.2 * Real.pi / 180; let y3 := p.1 * Real.pi / 180
  let dx := x2 - x1
  let dy := y2 - y1
  ((x3 - x1) * dx + (y3 - y1) * dy) / (dx * dx + dy * dy)

/-- `pointToSegmentDistanceMeters(p, v, w)`: planar projection of `p` onto
the segment in radian space (parameter `t` clamped to `[0,1]`), then
haversine back to `p`; degenerate segments fall back to point-to-point
distance. -/
noncomputable def pointToSegmentDistanceMeters (p v w : Point) : ℝ :=
  if v.1 = w.1 ∧ v.2 = w.2 then distanceMeters v.1 v.2 p.1 p.2
  else
    let tt := max 0 (min 1 (segProjParam p v w))
    let projX := v.2 * Real.pi / 180 + tt * (w.2 * Real.pi / 180 - v.2 * Real.pi / 180)
    let projY := v.1 * Real.pi / 180 + tt * (w.1 * Real.pi / 180 - v.1 * Real.pi / 180)
    distanceMeters (projY * 180 / Real.pi) (projX * 180 / Real.pi) p.1 p.2

/-- `nearestDistanceToPolylineMeters(p, polyline)`: running minimum over
every consecutive segment pair, starting from `Infinity` (`⊤`); an empty
or one-point polyline has no segment pair and stays at `⊤`. -/
noncomputable def nearestDistanceToPolylineMeters (p : Point) (poly : List Point) : ℝ≥0∞ :=
  (poly.zip poly.tail).foldl
    (fun m vw => min m (ENNReal.ofReal (pointToSegmentDistanceMeters p vw.1 vw.2))) ⊤

/- ===================== sampling ===================== -/

/-- The sample indices of `matchTripToRoutes`: stride
`step = max(1, ⌊n / L⌋)`, indices `0, step, 2·step, … < n`, then the final
index appended when the stride missed it (the JS object-identity test
`samples[last] !== trip[n-1]` on distinct point objects; the matcher only
samples trips of length ≥ 2, for which the index list is nonempty). -/
def sampleIndices (n L : ℕ) : List ℕ :=
  let step := max 1 (n / L)
  let base := (List.range n).filter (fun i => i % step = 0)
  if base.getLast? = some (n - 1) then base else base ++ [n - 1]

/-- The sampled trip points (`samples` in `matchTripToRoutes`). -/
def samplePoints (trip : List Point) (L : ℕ) : List Point :=
  (sampleIndices trip.length L).map (fun i => trip.getD i (0, 0))

/- ===================== scoring ===================== -/

/-- `Math.min(...l)` for the nonempty lists the matcher builds. -/
def listMin : List ℝ → ℝ
  | [] => 0
  | x :: xs => xs.foldl min x

/-- `Math.max(...l)` for the nonempty lists the matcher builds. -/
def listMax : List ℝ → ℝ
  | [] => 0
  | x :: xs => xs.foldl max x

/-- The quick-reject test of the pre-filter: the sampled-trip bounding box
fails to overlap the stored route bbox within the 0.01-degree slack. -/
def bboxReject (samples : List Point) (b : BBox) : Prop :=
  listMax (samples.map Prod.fst) < b.minLat - 0.01 ∨
  listMin (samples.map Prod.fst) > b.maxLat + 0.01 ∨
  listMax (samples.map Prod.snd) < b.minLng - 0.01 ∨
  listMin (samples.map Prod.snd) > b.maxLng + 0.01

/-- Whether the route is skipped by the pre-filter (`if (r.bbox) { … }`). -/
def routeRejected (samples : List Point) (r : Route) : Prop :=
  match r.bbox with
  | some b => bboxReject samples b
  | none => False

/-- The per-sample nearest distances to a route polyline. -/
noncomputable def nearestList (samples poly : List Point) : List ℝ≥0∞ :=
  samples.map (fun s => nearestDistanceToPolylineMeters s poly)

/-- The accumulated `sum` of the scoring loop. -/
noncomputable def distSum (samples poly : List Point) : ℝ≥0∞ :=
  (nearestList samples poly).sum

/-- The accumulated `withinCount` of the scoring loop. -/
noncomputable def withinCount (samples poly : List Point) (T : ℝ) : ℕ :=
  (nearestList samples poly).countP (fun d => d ≤ ENNReal.ofReal T)

/-- `avgDist = sum / samples.length`. -/
noncomputable def avgDistOf (samples poly : List Point) : ℝ≥0∞ :=
  distSum samples poly / (samples.length : ℝ≥0∞)

/-- `fractionWithin = withinCount / samples.length`. -/
noncomputable def fractionWithinOf (samples poly : List Point) (T : ℝ) : ℝ :=
  (withinCount samples poly T : ℝ) / (samples.length : ℝ)

/-- `score = 0.6·fractionWithin + 0.4·(1 − min(avgDist, MAX_DIST)/MAX_DIST)`. -/
noncomputable def scoreOf (samples poly : List Point) (T M : ℝ) : ℝ :=
  0.6 * fractionWithinOf samples poly T +
    0.4 * (1 - (min (avgDistOf samples poly) (ENNReal.ofReal M)).toReal / M)

/-- The candidate record the scoring loop builds for one surviving route. -/
noncomputable def mkCandidate (r : Route) (samples : List Point) (o : MatchOptsIn) : Candidate :=
  ⟨r.routeId, r.name,
    scoreOf samples r.polyline (o.distThresholdMeters.getD 75) (o.maxDist.getD 400),
    avgDistOf samples r.polyline,
    fractionWithinOf samples r.polyline (o.distThresholdMeters.getD 75)⟩

/-- One iteration of the `for (const r of routes)` loop: skip empty
polylines, apply the bbox pre-filter, score, keep the strictly better
candidate. -/
noncomputable def considerRoute (samples : List Point) (o : MatchOptsIn)
    (best : Option Candidate) (r : Route) : Option Candidate :=
  if r.polyline.isEmpty then best
  else if routeRejected samples r then best
  else
    let c := mkCandidate r samples o
    match best with
    | none => some c
    | some b => if b.score < c.score then some c else some b

/-- `matchTripToRoutes` once the catalog is in hand: guards, sampling, and
the scoring loop over all routes. -/
noncomputable def matchRoutes (trip : List Point) (routes : List Route)
    (o : MatchOptsIn) : Option Candidate :=
  if trip.length < 2 then none
  else if routes.isEmpty then none
  else routes.foldl (considerRoute (samplePoints trip (o.sampleLimit.getD 60)) o) none

/-- `matchTripToRoutes(tripPolyline, opts)` with its storage collaborator:
the trip-length guard runs before `Route.find`, and a storage failure
propagates as `.error`. -/
noncomputable def matchTripToRoutes (trip : List Point) (o : MatchOptsIn)
    (st : Except StorageErr (List Route)) : Except StorageErr (Option Candidate) :=
  if trip.length < 2 then .ok none
  else
    match st with
    | .error e => .error e
    | .ok routes => .ok (matchRoutes trip routes o)

/-- Modelled from the spec for the claim C3 comparison: the unfiltered
computation, scoring every stored route with a non-empty polyline and
never consulting the bounding boxes. -/
noncomputable def considerRouteUnfiltered (samples : List Point) (o : MatchOptsIn)
    (best : Option Candidate) (r : Route) : Option Candidate :=
  if r.polyline.isEmpty then best
  else
    let c := mkCandidate r samples o
    match best with
    | none => some c
    | some b => if b.score < c.score then some c else some b

/-- Modelled from the spec for the claim C3 comparison: `matchRoutes`
without the bounding-box pre-filter. -/
noncomputable def matchRoutesUnfiltered (trip : List Point) (routes : List Route)
    (o : MatchOptsIn) : Option Candidate :=
  if trip.length < 2 then none
  else if routes.isEmpty then none
  else routes.foldl (considerRouteUnfiltered (samplePoints trip (o.sampleLimit.getD 60)) o) none

/-- The `fractionWithin` the matcher assigns a fixed route polyline for a
given trip, sampling included. -/
noncomputable def tripFractionWithin (trip poly : List Point) (o : MatchOptsIn) : ℝ :=
  fractionWithinOf (samplePoints trip (o.sampleLimit.getD 60)) poly
    (o.distThresholdMeters.getD 75)

/- ===================== HTTP layer around the matcher ===================== -/

/-- The fields of the `/api/gps/trip` response that concern matching. -/
structure TripResponse where
  success : Bool
  candidate : Option Candidate
  matchedRoute : Option (ℕ × String × ℝ)

/-- The `/api/gps/trip` handler around the matcher: 404 (`none`) when the
day has no points; otherwise the inner `try { … } catch` logs a matching
error and the response is sent successfully either way. -/
noncomputable def tripEndpoint (points : List GpsPoint)
    (st : Except StorageErr (List Route)) : Option TripResponse :=
  if points.isEmpty then none
  else
    let polyline := points.map (fun p => (p.lat, p.lng))
    let cand : Option Candidate :=
      match matchTripToRoutes polyline defaultOptsIn st with
      | .ok c => c
      | .error _ => none
    some ⟨true, cand,
      match cand with
      | some c => if 0.75 ≤ c.score then some (c.routeId, c.name, c.score) else none
      | none => none⟩

/-- Whether a match query produced an actual candidate (as opposed to
failing or finding nothing). -/
def hasMatch : Except StorageErr (Option Candidate) → Bool
  | .ok (some _) => true
  | _ => false

/- ===================== sync candidates ===================== -/

/-- The UTC calendar-day bucket of `new Date(p.createdAt).toISOString().slice(0,10)`,
as a day count since the epoch. -/
def dayKey (p : GpsPoint) : ℕ := p.createdAt / 86400000

/-- `groups[key] = groups[key] || []; groups[key].push(p)`: append to the
entry of the key, or add a fresh entry at the end. -/
def upsert (k : ℕ) (p : GpsPoint) : List (ℕ × List GpsPoint) → List (ℕ × List GpsPoint)
  | [] => [(k, [p])]
  | (k', g) :: t => if k' = k then (k', g ++ [p]) :: t else (k', g) :: upsert k p t

/-- The day-bucket grouping of `/api/routes/sync`, entries in first-seen
order as `Object.entries` yields them. -/
def groupByDay (pts : List GpsPoint) : List (ℕ × List GpsPoint) :=
  pts.foldl (fun acc p => upsert (dayKey p) p acc) []

/-- One reported sync candidate: `{ date, polyline, candidate }`. -/
structure SyncItem where
  day : ℕ
  polyline : List Point
  candidate : Option Candidate

/-- The `/api/routes/sync` scan: match each day's polyline and report the
day when it matched nothing or scored below the 0.75 threshold. -/
noncomputable def syncCandidates (pts : List GpsPoint) (routes : List Route) : List SyncItem :=
  (groupByDay pts).filterMap (fun dg =>
    let poly := dg.2.map (fun p => (p.lat, p.lng))
    match matchRoutes poly routes defaultOptsIn with
    | none => some ⟨dg.1, poly, none⟩
    | some c => if c.score < 0.75 then some ⟨dg.1, poly, some c⟩ else none)

/- ===================== sampling lemmas ===================== -/

lemma length_filter_mod (n s : ℕ) (hn : 1 ≤ n) (hs : 1 ≤ s) :
    ((List.range n).filter (fun i => i % s = 0)).length = (n - 1) / s + 1 := by
  induction n with
  | zero => omega
  | succ m ih =>
    rcases Nat.eq_zero_or_pos m with hm | hm
    · subst hm
      have hf : List.filter (fun i => decide (i % s = 0)) (List.range 1) = [0] := by
        rw [show List.range 1 = [0] from rfl, List.filter_cons]
        simp
      rw [hf]
      simp
    · rw [List.range_succ, List.filter_append, List.length_append, ih hm]
      have hsucc : (m - 1 + 1) / s = (m - 1) / s + if s ∣ m - 1 + 1 then 1 else 0 :=
        Nat.succ_div (m - 1) s
      rw [show m - 1 + 1 = m from by omega] at hsucc
      by_cases h : m % s = 0
      · have hd : s ∣ m := Nat.dvd_iff_mod_eq_zero.mpr h
        rw [if_pos hd] at hsucc
        have hf : List.filter (fun i => decide (i % s = 0)) [m] = [m] := by simp [h]
        rw [hf]
        simp only [Nat.add_sub_cancel, List.length_singleton]
        rw [hsucc]
      · have hd : ¬ s ∣ m := fun hdd => h (Nat.dvd_iff_mod_eq_zero.mp hdd)
        rw [if_neg hd] at hsucc
        have hf : List.filter (fun i => decide (i % s = 0)) [m] = [] := by simp [h]
        rw [hf]
        simp only [Nat.add_sub_cancel, List.length_nil]
        rw [hsucc]

lemma getLast?_filter_mod (n s : ℕ) (hn : 1 ≤ n) (hs : 1 ≤ s) :
    ((List.range n).filter (fun i => i % s = 0)).getLast? = some ((n - 1) / s * s) := by
  induction n with
  | zero => omega
  | succ m ih =>
    rcases Nat.eq_zero_or_pos m with hm | hm
    · subst hm
      have hf : List.filter (fun i => decide (i % s = 0)) (List.range 1) = [0] := by
        rw [show List.range 1 = [0] from rfl, List.filter_cons]
        simp
      rw [hf]
      simp
    · rw [List.range_succ, List.filter_append]
      have hsucc : (m - 1 + 1) / s = (m - 1) / s + if s ∣ m - 1 + 1 then 1 else 0 :=
        Nat.succ_div (m - 1) s
      rw [show m - 1 + 1 = m from by omega] at hsucc
      by_cases h : m % s = 0
      · have hd : s ∣ m := Nat.dvd_iff_mod_eq_zero.mpr h
        have hf : List.filter (fun i => decide (i % s = 0)) [m] = [m] := by simp [h]
        rw [hf, List.getLast?_concat]
        simp only [Nat.add_sub_cancel]
        rw [Nat.div_mul_cancel hd]
      · have hd : ¬ s ∣ m := fun hdd => h (Nat.dvd_iff_mod_eq_zero.mp hdd)
        rw [if_neg hd] at hsucc
        simp only [Nat.add_eq, Nat.add_zero] at hsucc
        have hf : List.filter (fun i => decide (i % s = 0)) [m] = [] := by simp [h]
        rw [hf, List.append_nil, ih hm]
        simp only [Nat.add_sub_cancel]
        rw [hsucc]

lemma stride_div_bound (n L q : ℕ) (hn : 2 ≤ n) (hL : 1 ≤ L) (hq : q = n / L)
    (hq1 : 1 ≤ q) : (n - 1) / q ≤ 2 * L - 2 := by
  have hmod : L * q + n % L = n := by rw [hq]; exact Nat.div_add_mod n L
  have hr : n % L < L := Nat.mod_lt n (by omega)
  have hnle : n ≤ (2 * L - 1) * q := by
    have h1 : L - 1 ≤ (L - 1) * q := Nat.le_mul_of_pos_right _ (by omega)
    have h2 : (2 * L - 1) * q = L * q + (L - 1) * q := by
      rw [show 2 * L - 1 = L + (L - 1) from by omega, Nat.add_mul]
    have h3 : n % L ≤ L - 1 := by omega
    linarith [hmod, h1, h2, h3]
  have hmul : (n - 1) / q * q ≤ n - 1 := Nat.div_mul_le_self _ _
  generalize hgen : (n - 1) / q = m at hmul ⊢
  rcases Nat.lt_or_ge m (2 * L - 1) with hlt | hge
  · omega
  · exfalso
    have h2 : (2 * L - 1) * q ≤ m * q := Nat.mul_le_mul_right _ hge
    have hsub : n - 1 + 1 = n := by omega
    linarith [h2, hnle, hmul, hsub]

lemma sampleIndices_length_le (n L : ℕ) (hn : 2 ≤ n) (hL : 1 ≤ L) :
    (sampleIndices n L).length ≤ 2 * L := by
  simp only [sampleIndices]
  obtain ⟨s, hsdef⟩ : ∃ s, max 1 (n / L) = s := ⟨_, rfl⟩
  rw [hsdef]
  have hs1 : 1 ≤ s := hsdef ▸ le_max_left 1 (n / L)
  have hlen := length_filter_mod n s (by omega) hs1
  have hlast := getLast?_filter_mod n s (by omega) hs1
  rw [hlast]
  by_cases h0 : n / L = 0
  · have hnL : n < L := by
      by_contra hc
      have : 1 ≤ n / L := (Nat.one_le_div_iff (by omega)).mpr (by omega)
      omega
    have hs : s = 1 := by rw [← hsdef, h0]; exact max_eq_left (by omega)
    subst hs
    rw [Nat.div_one] at hlen
    rw [Nat.div_one, Nat.mul_one, if_pos rfl, hlen]
    omega
  · have hq1 : 1 ≤ n / L := Nat.one_le_iff_ne_zero.mpr h0
    have hs : s = n / L := by rw [← hsdef]; exact max_eq_right hq1
    have hm2L : (n - 1) / s ≤ 2 * L - 2 := by
      rw [hs]; exact stride_div_bound n L (n / L) hn hL rfl hq1
    by_cases hend : (n - 1) / s * s = n - 1
    · rw [if_pos (by rw [hend]), hlen]
      generalize hgen : (n - 1) / s = m at hm2L ⊢
      omega
    · rw [if_neg (fun hc => hend (Option.some.inj hc)), List.length_append, hlen]
      simp only [List.length_singleton]
      generalize hgen : (n - 1) / s = m at hm2L ⊢
      omega

/-- C1 (counterexample): on the 61-point trip with the default
`sampleLimit = 60`, `matchTripToRoutes` samples all 61 points — more than
`sampleLimit` — because the stride is `⌊n / sampleLimit⌋ = 1`, not
`⌈n / sampleLimit⌉`; the claimed bound fails. -/
theorem sample_count_exceeds_limit_cx :
    2 ≤ (List.replicate 61 (((0 : ℝ), (0 : ℝ)) : Point)).length ∧
      60 < (samplePoints (List.replicate 61 ((0 : ℝ), (0 : ℝ))) 60).length := by
  refine ⟨by simp, ?_⟩
  rw [samplePoints, List.length_map, List.length_replicate]
  have h : (sampleIndices 61 60).length = 61 := by decide
  omega

/-- C1 (amended): for a trip of length `n ≥ 2` the matcher strides by
`max(1, ⌊n / sampleLimit⌋)` and appends the final point when the stride
missed it; the number of points used for scoring can exceed `sampleLimit`
but never exceeds `2 · sampleLimit`. -/
theorem sample_count_at_most_twice_limit (trip : List Point) (L : ℕ)
    (hn : 2 ≤ trip.length) (hL : 1 ≤ L) :
    (samplePoints trip L).length ≤ 2 * L := by
  rw [samplePoints, List.length_map]
  exact sampleIndices_length_le _ _ hn hL

/-- C1 (witness): the amended bound at a concrete trip of length 5 with
the default limit 60. -/
theorem sample_count_at_most_twice_limit_witness :
    2 ≤ (List.replicate 5 (((0 : ℝ), (0 : ℝ)) : Point)).length ∧ 1 ≤ 60 ∧
      (samplePoints (List.replicate 5 ((0 : ℝ), (0 : ℝ))) 60).length ≤ 2 * 60 :=
  ⟨by simp, by omega,
    sample_count_at_most_twice_limit _ 60 (by simp) (by omega)⟩

/- ===================== geometry lemmas ===================== -/

lemma distanceMeters_comm (lat1 lon1 lat2 lon2 : ℝ) :
    distanceMeters lat1 lon1 lat2 lon2 = distanceMeters lat2 lon2 lat1 lon1 := by
  simp only [distanceMeters]
  have h1 : (lat1 - lat2) * Real.pi / 180 / 2 = -((lat2 - lat1) * Real.pi / 180 / 2) := by
    ring
  have h2 : (lon1 - lon2) * Real.pi / 180 / 2 = -((lon2 - lon1) * Real.pi / 180 / 2) := by
    ring
  rw [h1, h2, Real.sin_neg, Real.sin_neg]
  ring_nf

/-- C7: on a degenerate segment `[v, v]`, `pointToSegmentDistanceMeters`
takes the fallback branch and equals the geodesic point-to-point distance
from `p` to `v` (it is total: no error is possible). -/
theorem pointToSegment_degenerate (p v : Point) :
    pointToSegmentDistanceMeters p v v = distanceMeters p.1 p.2 v.1 v.2 := by
  simp only [pointToSegmentDistanceMeters, and_self, ite_true]
  exact distanceMeters_comm v.1 v.2 p.1 p.2

/-- C10: a one-point polyline has no consecutive segment pair, so the
running minimum is never lowered and the result is `Infinity` (`⊤`). -/
theorem nearest_singleton_top (p v : Point) :
    nearestDistanceToPolylineMeters p [v] = ⊤ := rfl

/- fold-min machinery for the polyline minimum -/

lemma foldl_min_shift {α : Type} (f : α → ℝ≥0∞) (l : List α) (a : ℝ≥0∞) :
    l.foldl (fun m x => min m (f x)) a = min a (l.foldl (fun m x => min m (f x)) ⊤) := by
  induction l generalizing a with
  | nil => simp
  | cons b t ih =>
    simp only [List.foldl_cons]
    rw [ih (min a (f b)), ih (min ⊤ (f b)), min_eq_right (le_top : f b ≤ ⊤), min_assoc]

lemma foldl_min_le_mem {α : Type} (f : α → ℝ≥0∞) {l : List α} {x : α} (hx : x ∈ l) :
    l.foldl (fun m y => min m (f y)) ⊤ ≤ f x := by
  induction l with
  | nil => cases hx
  | cons b t ih =>
    simp only [List.foldl_cons]
    rw [foldl_min_shift]
    rcases List.mem_cons.mp hx with h | h
    · subst h
      exact le_trans (min_le_left _ _) (min_le_right _ _)
    · exact le_trans (min_le_right _ _) (ih h)

lemma foldl_min_top_or_mem {α : Type} (f : α → ℝ≥0∞) (l : List α) :
    l.foldl (fun m y => min m (f y)) ⊤ = ⊤ ∨
      ∃ x ∈ l, l.foldl (fun m y => min m (f y)) ⊤ = f x := by
  induction l with
  | nil => left; rfl
  | cons b t ih =>
    simp only [List.foldl_cons]
    rw [foldl_min_shift, min_eq_right (le_top : f b ≤ ⊤)]
    rcases ih with htop | ⟨x, hx, hval⟩
    · rw [htop, min_eq_left le_top]
      right
      exact ⟨b, List.mem_cons_self b t, rfl⟩
    · rw [hval]
      rcases le_total (f b) (f x) with hle | hle
      · rw [min_eq_left hle]
        right
        exact ⟨b, List.mem_cons_self b t, rfl⟩
      · rw [min_eq_right hle]
        right
        exact ⟨x, List.mem_cons_of_mem b hx, rfl⟩

lemma zip_tail_length (poly : List Point) :
    (poly.zip poly.tail).length = poly.length - 1 := by
  rw [List.length_zip, List.length_tail]
  omega

lemma zip_tail_get (poly : List Point) (k : ℕ) (hk : k < (poly.zip poly.tail).length) :
    (poly.zip poly.tail).get ⟨k, hk⟩ =
      (poly.getD k (0, 0), poly.getD (k + 1) (0, 0)) := by
  have hlen := zip_tail_length poly
  have hk1 : k < poly.length := by omega
  have hk2 : k + 1 < poly.length := by omega
  have hkt : k < poly.tail.length := by rw [List.length_tail]; omega
  rw [List.get_zip]
  rw [List.get_tail poly k hkt hk2]
  rw [List.getD_eq_get poly (0, 0) hk1, List.getD_eq_get poly (0, 0) hk2]

/-- C9: `nearestDistanceToPolylineMeters` returns `Infinity` (`⊤`) on the
empty polyline; on a polyline with at least one segment it is a lower
bound of every consecutive-pair segment distance and is attained by one of
them — the minimum over all consecutive segment pairs. -/
theorem nearest_polyline_characterization (p : Point) (poly : List Point) :
    nearestDistanceToPolylineMeters p [] = ⊤ ∧
    (∀ i, i + 1 < poly.length →
      nearestDistanceToPolylineMeters p poly ≤
        ENNReal.ofReal (pointToSegmentDistanceMeters p (poly.getD i (0, 0))
          (poly.getD (i + 1) (0, 0)))) ∧
    (2 ≤ poly.length → ∃ i, i + 1 < poly.length ∧
      nearestDistanceToPolylineMeters p poly =
        ENNReal.ofReal (pointToSegmentDistanceMeters p (poly.getD i (0, 0))
          (poly.getD (i + 1) (0, 0)))) := by
  have hlen := zip_tail_length poly
  have hnear : ∀ f : Point × Point → ℝ≥0∞,
      (∀ vw, f vw = ENNReal.ofReal (pointToSegmentDistanceMeters p vw.1 vw.2)) →
      nearestDistanceToPolylineMeters p poly =
        (poly.zip poly.tail).foldl (fun m y => min m (f y)) ⊤ := by
    intro f hf
    unfold nearestDistanceToPolylineMeters
    congr 1
    funext m y
    rw [hf]
  refine ⟨rfl, ?_, ?_⟩
  · intro i hi
    have hk : i < (poly.zip poly.tail).length := by omega
    have hmem : (poly.getD i (0, 0), poly.getD (i + 1) (0, 0)) ∈ poly.zip poly.tail := by
      rw [← zip_tail_get poly i hk]
      exact List.get_mem _ _ _
    have hle := foldl_min_le_mem
      (fun vw : Point × Point => ENNReal.ofReal (pointToSegmentDistanceMeters p vw.1 vw.2)) hmem
    rw [← hnear _ (fun vw => rfl)] at hle
    exact hle
  · intro h2
    rcases foldl_min_top_or_mem
        (fun vw : Point × Point => ENNReal.ofReal (pointToSegmentDistanceMeters p vw.1 vw.2))
        (poly.zip poly.tail) with htop | ⟨x, hx, hval⟩
    · exfalso
      have hk : 0 < (poly.zip poly.tail).length := by omega
      have hmem : (poly.getD 0 (0, 0), poly.getD 1 (0, 0)) ∈ poly.zip poly.tail := by
        rw [← zip_tail_get poly 0 hk]
        exact List.get_mem _ _ _
      have hle := foldl_min_le_mem
        (fun vw : Point × Point => ENNReal.ofReal (pointToSegmentDistanceMeters p vw.1 vw.2)) hmem
      rw [htop] at hle
      exact ENNReal.ofReal_ne_top (top_le_iff.mp hle)
    · obtain ⟨⟨k, hk⟩, hget⟩ := List.mem_iff_get.mp hx
      refine ⟨k, by omega, ?_⟩
      rw [hnear _ (fun vw => rfl), hval, ← hget, zip_tail_get poly k hk]

/-- C9 (witness): the characterization instantiated on a concrete point
and the two-point equator polyline, its single segment at index 0. -/
theorem nearest_polyline_characterization_witness :
    nearestDistanceToPolylineMeters ((0 : ℝ), (0 : ℝ)) [] = ⊤ ∧
      nearestDistanceToPolylineMeters ((0 : ℝ), (0 : ℝ))
          [((0 : ℝ), (0 : ℝ)), ((0 : ℝ), (1 : ℝ))] ≤
        ENNReal.ofReal (pointToSegmentDistanceMeters ((0 : ℝ), (0 : ℝ))
          ([((0 : ℝ), (0 : ℝ)), ((0 : ℝ), (1 : ℝ))].getD 0 (0, 0))
          ([((0 : ℝ), (0 : ℝ)), ((0 : ℝ), (1 : ℝ))].getD 1 (0, 0))) ∧
      (∃ i, i + 1 < ([((0 : ℝ), (0 : ℝ)), ((0 : ℝ), (1 : ℝ))] : List Point).length ∧
        nearestDistanceToPolylineMeters ((0 : ℝ), (0 : ℝ))
            [((0 : ℝ), (0 : ℝ)), ((0 : ℝ), (1 : ℝ))] =
          ENNReal.ofReal (pointToSegmentDistanceMeters ((0 : ℝ), (0 : ℝ))
            ([((0 : ℝ), (0 : ℝ)), ((0 : ℝ), (1 : ℝ))].getD i (0, 0))
            ([((0 : ℝ), (0 : ℝ)), ((0 : ℝ), (1 : ℝ))].getD (i + 1) (0, 0)))) :=
  ⟨(nearest_polyline_characterization ((0 : ℝ), (0 : ℝ))
      [((0 : ℝ), (0 : ℝ)), ((0 : ℝ), (1 : ℝ))]).1,
   (nearest_polyline_characterization ((0 : ℝ), (0 : ℝ))
      [((0 : ℝ), (0 : ℝ)), ((0 : ℝ), (1 : ℝ))]).2.1 0 (by norm_num),
   (nearest_polyline_characterization ((0 : ℝ), (0 : ℝ))
      [((0 : ℝ), (0 : ℝ)), ((0 : ℝ), (1 : ℝ))]).2.2 (by norm_num)⟩

/- ===================== concrete fixtures ===================== -/

/-- A reference route along the equator from `(0,0)` to `(0,1)`. -/
def eqRoutePoly : List Point := [((0 : ℝ), (0 : ℝ)), ((0 : ℝ), (1 : ℝ))]

/-- The equator route stored without a bbox (the schema allows it). -/
def rPlain : Route := ⟨1, "R1", eqRoutePoly, none⟩

/-- The equator route stored with its tight bbox. -/
def rBoxed : Route := ⟨1, "R1", eqRoutePoly, some ⟨0, 0, 0, 1⟩⟩

/-- A route one degree of latitude away, with its tight bbox. -/
def rFar : Route := ⟨2, "R2", [((1 : ℝ), (0 : ℝ)), ((1 : ℝ), (0.001 : ℝ))], some ⟨1, 0, 1, 0.001⟩⟩

/-- A two-point trip lying on the equator route. -/
def trip2 : List Point := [((0 : ℝ), (0.25 : ℝ)), ((0 : ℝ), (0.75 : ℝ))]

/-- The same trip as stored GPS fixes of one day. -/
def pts2 : List GpsPoint := [⟨0, 0.25, 0⟩, ⟨0, 0.75, 0⟩]

lemma considerRoute_none_accepts (samples : List Point) (o : MatchOptsIn) (r : Route)
    (hp : r.polyline.isEmpty = false) (hb : ¬ routeRejected samples r) :
    considerRoute samples o none r = some (mkCandidate r samples o) := by
  simp [considerRoute, hp, hb]

/- ===================== C8: insufficient input ===================== -/

/-- C8: `matchTripToRoutes` answers `.ok none` — an ordinary no-match, not
a failure — whenever the trip has fewer than 2 points (the guard runs
before the catalog is consulted, so even a failing store is irrelevant) or
the stored catalog is empty. -/
theorem insufficient_input_returns_none (trip : List Point) (o : MatchOptsIn)
    (st : Except StorageErr (List Route)) :
    (trip.length < 2 → matchTripToRoutes trip o st = .ok none) ∧
    (st = .ok [] → matchTripToRoutes trip o st = .ok none) := by
  constructor
  · intro h
    simp [matchTripToRoutes, h]
  · intro h
    subst h
    by_cases h2 : trip.length < 2
    · simp [matchTripToRoutes, h2]
    · simp [matchTripToRoutes, h2, matchRoutes]

/-- C8 (witness): a one-point-free trip with a failing store, and a valid
trip with an empty catalog, both answer `.ok none`. -/
theorem insufficient_input_returns_none_witness :
    matchTripToRoutes [] defaultOptsIn (.error .unavailable) = .ok none ∧
    matchTripToRoutes trip2 defaultOptsIn (.ok []) = .ok none :=
  ⟨(insufficient_input_returns_none [] defaultOptsIn (.error .unavailable)).1 (by simp),
   (insufficient_input_returns_none trip2 defaultOptsIn (.ok [])).2 rfl⟩

/- ===================== C2: storage failure ===================== -/

/-- C2 (amended): the core `matchTripToRoutes` does propagate a storage
failure on any matchable trip as `.error`, never conflating it with
`.ok none`; the amendment is that the `/api/gps/trip` endpoint then
catches that failure and still responds successfully without a candidate. -/
theorem storage_error_propagates (trip : List Point) (o : MatchOptsIn) (e : StorageErr)
    (h : 2 ≤ trip.length) : matchTripToRoutes trip o (.error e) = .error e := by
  simp [matchTripToRoutes, show ¬ trip.length < 2 from by omega]

/-- C2 (witness): the propagation theorem at the concrete two-point trip. -/
theorem storage_error_propagates_witness :
    2 ≤ trip2.length ∧
      matchTripToRoutes trip2 defaultOptsIn (.error .unavailable) =
        .error .unavailable :=
  ⟨by norm_num [trip2],
   storage_error_propagates trip2 defaultOptsIn .unavailable (by norm_num [trip2])⟩

/-- C2 (counterexample): the single-trip query endpoint swallows the
storage failure: with the store failing it sends a *successful* response
whose candidate is simply absent, although the same request against the
working store does produce a match — exactly the conflation the claim
forbids. -/
theorem trip_endpoint_swallows_storage_error :
    tripEndpoint pts2 (.error .unavailable) = some ⟨true, none, none⟩ ∧
      hasMatch (matchTripToRoutes (pts2.map (fun p => (p.lat, p.lng))) defaultOptsIn
        (.ok [rPlain])) = true := by
  constructor
  · simp [tripEndpoint, pts2, matchTripToRoutes]
  · simp [hasMatch, matchTripToRoutes, matchRoutes, pts2, considerRoute, routeRejected,
      rPlain, eqRoutePoly]

/- ===================== C5: score bounds ===================== -/

lemma withinCount_le_length (samples poly : List Point) (T : ℝ) :
    withinCount samples poly T ≤ samples.length := by
  unfold withinCount nearestList
  calc ((samples.map (fun s => nearestDistanceToPolylineMeters s poly)).countP
        (fun d => d ≤ ENNReal.ofReal T))
      ≤ (samples.map (fun s => nearestDistanceToPolylineMeters s poly)).length :=
        List.countP_le_length _
    _ = samples.length := List.length_map _ _

lemma scoreOf_bounds (samples poly : List Point) (T M : ℝ) (h : samples ≠ []) :
    0 ≤ scoreOf samples poly T M ∧ scoreOf samples poly T M ≤ 1 := by
  have hlen : 0 < samples.length := List.length_pos.mpr h
  have hlenR : (0 : ℝ) < (samples.length : ℝ) := by exact_mod_cast hlen
  have hf0 : 0 ≤ fractionWithinOf samples poly T := by
    unfold fractionWithinOf
    positivity
  have hf1 : fractionWithinOf samples poly T ≤ 1 := by
    unfold fractionWithinOf
    rw [div_le_one hlenR]
    exact_mod_cast withinCount_le_length samples poly T
  set r : ℝ := (min (avgDistOf samples poly) (ENNReal.ofReal M)).toReal with hr
  have hr0 : 0 ≤ r := ENNReal.toReal_nonneg
  have hrle : r ≤ max M 0 := by
    rw [hr]
    calc (min (avgDistOf samples poly) (ENNReal.ofReal M)).toReal
        ≤ (ENNReal.ofReal M).toReal :=
          ENNReal.toReal_mono ENNReal.ofReal_ne_top (min_le_right _ _)
      _ = max M 0 := ENNReal.toReal_ofReal'
  have hterm : 0 ≤ 1 - r / M ∧ 1 - r / M ≤ 1 := by
    rcases lt_trichotomy M 0 with hM | hM | hM
    · have hrz : r = 0 := le_antisymm (by rwa [max_eq_right (le_of_lt hM)] at hrle) hr0
      rw [hrz, zero_div]
      norm_num
    · subst hM
      have hrz : r = 0 := le_antisymm (by simpa using hrle) hr0
      rw [hrz, zero_div]
      norm_num
    · have hrM : r ≤ M := by rwa [max_eq_left (le_of_lt hM)] at hrle
      have h1 : r / M ≤ 1 := (div_le_one hM).mpr hrM
      have h2 : 0 ≤ r / M := div_nonneg hr0 (le_of_lt hM)
      constructor <;> linarith
  unfold scoreOf
  rw [← hr]
  constructor <;> nlinarith [hf0, hf1, hterm.1, hterm.2]

lemma considerRoute_cases (samples : List Point) (o : MatchOptsIn)
    (acc : Option Candidate) (r : Route) :
    considerRoute samples o acc r = acc ∨
    considerRoute samples o acc r = some (mkCandidate r samples o) := by
  simp only [considerRoute]
  by_cases hp : r.polyline.isEmpty = true
  · rw [if_pos hp]; left; rfl
  · rw [if_neg hp]
    by_cases hb : routeRejected samples r
    · rw [if_pos hb]; left; rfl
    · rw [if_neg hb]
      cases acc with
      | none => right; rfl
      | some b =>
        by_cases hsc : b.score < (mkCandidate r samples o).score
        · right; simp [hsc]
        · left; simp [hsc]

lemma foldl_considerRoute_score_bounds (samples : List Point) (o : MatchOptsIn)
    (hs : samples ≠ []) (routes : List Route) :
    ∀ acc : Option Candidate,
      (∀ c, acc = some c → 0 ≤ c.score ∧ c.score ≤ 1) →
      ∀ c, routes.foldl (considerRoute samples o) acc = some c →
        0 ≤ c.score ∧ c.score ≤ 1 := by
  induction routes with
  | nil => intro acc hacc c hc; exact hacc c hc
  | cons r rs ih =>
    intro acc hacc c hc
    simp only [List.foldl_cons] at hc
    refine ih _ ?_ c hc
    intro c' hc'
    rcases considerRoute_cases samples o acc r with hcase | hcase
    · rw [hcase] at hc'; exact hacc c' hc'
    · rw [hcase] at hc'
      obtain rfl : mkCandidate r samples o = c' := Option.some.inj hc'
      exact scoreOf_bounds samples r.polyline _ _ hs

lemma sampleIndices_ne_nil (n L : ℕ) (hn : 1 ≤ n) : sampleIndices n L ≠ [] := by
  have h0 : 0 ∈ (List.range n).filter (fun i => i % (max 1 (n / L)) = 0) :=
    List.mem_filter.mpr ⟨List.mem_range.mpr (by omega), by simp⟩
  simp only [sampleIndices]
  intro hcontra
  split at hcontra
  · exact List.ne_nil_of_mem h0 hcontra
  · simp at hcontra

lemma samplePoints_ne_nil (trip : List Point) (L : ℕ) (hn : 1 ≤ trip.length) :
    samplePoints trip L ≠ [] := by
  unfold samplePoints
  intro h
  exact sampleIndices_ne_nil trip.length L hn (List.map_eq_nil.mp h)

/-- C5: every candidate `matchTripToRoutes` returns carries a score inside
`[0, 1]`: `fractionWithin ∈ [0,1]` and the clamped, normalized distance
term lie in the unit interval, and the `0.6 / 0.4` blend keeps it there. -/
theorem match_score_in_unit_interval (trip : List Point) (routes : List Route)
    (o : MatchOptsIn) (c : Candidate) (h : matchRoutes trip routes o = some c) :
    0 ≤ c.score ∧ c.score ≤ 1 := by
  unfold matchRoutes at h
  by_cases h2 : trip.length < 2
  · rw [if_pos h2] at h; cases h
  · rw [if_neg h2] at h
    by_cases hre : routes.isEmpty
    · rw [if_pos hre] at h; cases h
    · rw [if_neg hre] at h
      have hs : samplePoints trip (o.sampleLimit.getD 60) ≠ [] :=
        samplePoints_ne_nil _ _ (by omega)
      exact foldl_considerRoute_score_bounds _ o hs routes none
        (by intro c hc; cases hc) c h

/-- C5 (witness): the bound instantiated on the concrete equator trip and
route, whose match succeeds. -/
theorem match_score_in_unit_interval_witness :
    0 ≤ (mkCandidate rPlain (samplePoints trip2 60) defaultOptsIn).score ∧
      (mkCandidate rPlain (samplePoints trip2 60) defaultOptsIn).score ≤ 1 :=
  match_score_in_unit_interval trip2 [rPlain] defaultOptsIn _
    (by simp [matchRoutes, trip2, considerRoute, routeRejected, rPlain, eqRoutePoly,
      defaultOptsIn])

/- ===================== C3: bbox pre-filter ===================== -/

lemma samplePoints_trip2 : samplePoints trip2 (defaultOptsIn.sampleLimit.getD 60) = trip2 := by
  rfl

/-- C3 (counterexample): a trip far away from the only stored route. The
pre-filter rejects it and `matchTripToRoutes` returns no candidate, while
the unfiltered computation scores the route (with a floor score) and
returns it as best — so the pre-filter does change the result. -/
theorem prefilter_changes_result_cx :
    matchRoutes trip2 [rFar] defaultOptsIn = none ∧
      matchRoutesUnfiltered trip2 [rFar] defaultOptsIn ≠ none := by
  have hreject : routeRejected (samplePoints trip2 (defaultOptsIn.sampleLimit.getD 60)) rFar := by
    rw [samplePoints_trip2]
    simp only [routeRejected, rFar]
    refine Or.inl ?_
    norm_num [listMax, trip2]
  constructor
  · simp only [matchRoutes]
    rw [if_neg (by norm_num [trip2]), if_neg (by simp)]
    simp only [List.foldl_cons, List.foldl_nil, considerRoute]
    rw [if_neg (by simp [rFar]), if_pos hreject]
  · simp only [matchRoutesUnfiltered]
    rw [if_neg (by norm_num [trip2]), if_neg (by simp)]
    simp only [List.foldl_cons, List.foldl_nil, considerRouteUnfiltered]
    rw [if_neg (by simp [rFar])]
    simp

lemma foldl_consider_eq_unfiltered (samples : List Point) (o : MatchOptsIn) :
    ∀ (routes : List Route) (acc : Option Candidate),
      (∀ r ∈ routes, ¬ routeRejected samples r) →
      routes.foldl (considerRoute samples o) acc =
        routes.foldl (considerRouteUnfiltered samples o) acc := by
  intro routes
  induction routes with
  | nil => intro acc _; rfl
  | cons r rs ih =>
    intro acc h
    simp only [List.foldl_cons]
    have hr : ¬ routeRejected samples r := h r (List.mem_cons_self r rs)
    have hstep : considerRoute samples o acc r = considerRouteUnfiltered samples o acc r := by
      simp only [considerRoute, considerRouteUnfiltered]
      by_cases hp : r.polyline.isEmpty = true
      · rw [if_pos hp, if_pos hp]
      · rw [if_neg hp, if_neg hp, if_neg hr]
    rw [hstep]
    exact ih _ (fun r' hr' => h r' (List.mem_cons_of_mem r hr'))

/-- C3 (amended): the pre-filter is a pure rejection filter — it never
alters the scoring of a route it accepts, so whenever it rejects no
scoreable route the filtered and unfiltered computations return the same
best candidate; it can change the result only by dropping rejected routes
(as in the counterexample, turning a floor-score match into `none`). -/
theorem prefilter_agrees_when_no_rejection (trip : List Point) (routes : List Route)
    (o : MatchOptsIn)
    (h : ∀ r ∈ routes, ¬ routeRejected (samplePoints trip (o.sampleLimit.getD 60)) r) :
    matchRoutes trip routes o = matchRoutesUnfiltered trip routes o := by
  unfold matchRoutes matchRoutesUnfiltered
  by_cases h2 : trip.length < 2
  · rw [if_pos h2, if_pos h2]
  · rw [if_neg h2, if_neg h2]
    by_cases hre : routes.isEmpty
    · rw [if_pos hre, if_pos hre]
    · rw [if_neg hre, if_neg hre]
      exact foldl_consider_eq_unfiltered _ o routes none h

/-- C3 (witness): with the equator trip and the boxed equator route the
pre-filter rejects nothing and both computations agree. -/
theorem prefilter_agrees_when_no_rejection_witness :
    ¬ routeRejected (samplePoints trip2 (defaultOptsIn.sampleLimit.getD 60)) rBoxed ∧
      matchRoutes trip2 [rBoxed] defaultOptsIn =
        matchRoutesUnfiltered trip2 [rBoxed] defaultOptsIn := by
  have hr : ¬ routeRejected (samplePoints trip2 (defaultOptsIn.sampleLimit.getD 60)) rBoxed := by
    rw [samplePoints_trip2]
    simp only [routeRejected, rBoxed]
    unfold bboxReject
    push_neg
    norm_num [listMax, listMin, trip2, max_def, min_def]
  refine ⟨hr, prefilter_agrees_when_no_rejection trip2 [rBoxed] defaultOptsIn ?_⟩
  intro r hmem
  rw [List.mem_singleton.mp hmem]
  exact hr

/- ===================== concrete geometry evaluation ===================== -/

lemma distanceMeters_same_lon (c x y : ℝ) (h0 : x ≤ y) (h1 : y - x < 180) :
    distanceMeters x c y c = 6371000 * ((y - x) * Real.pi / 180) := by
  have hpi := Real.pi_pos
  simp only [distanceMeters]
  set t : ℝ := (y - x) * Real.pi / 180 / 2 with ht
  have hzero : (c - c) * Real.pi / 180 / 2 = 0 := by ring
  rw [hzero, Real.sin_zero]
  simp only [mul_zero, zero_mul, add_zero]
  have hyx : 0 ≤ y - x := by linarith
  have ht0 : 0 ≤ t := by
    rw [ht]
    exact div_nonneg (div_nonneg (mul_nonneg hyx hpi.le) (by norm_num)) (by norm_num)
  have htlt : t < Real.pi / 2 := by
    rw [ht]
    nlinarith [mul_pos (show (0 : ℝ) < 180 - (y - x) by linarith) hpi]
  have hsin : 0 ≤ Real.sin t := Real.sin_nonneg_of_nonneg_of_le_pi ht0 (by linarith)
  have hcos : 0 < Real.cos t := Real.cos_pos_of_mem_Ioo ⟨by linarith, htlt⟩
  rw [Real.sqrt_mul_self hsin]
  have h1s : 1 - Real.sin t * Real.sin t = Real.cos t * Real.cos t := by
    have hpyth := Real.sin_sq_add_cos_sq t
    nlinarith [hpyth]
  rw [h1s, Real.sqrt_mul_self hcos.le]
  have hatan : atan2 (Real.sin t) (Real.cos t) = t := by
    simp only [atan2]
    rw [if_pos hcos, ← Real.tan_eq_sin_div_cos]
    exact Real.arctan_tan (by linarith) htlt
  rw [hatan, ht]
  ring

lemma segProjParam_equator (a l : ℝ) :
    segProjParam (a, l) ((0 : ℝ), (0 : ℝ)) ((0 : ℝ), (1 : ℝ)) = l := by
  have hpi : Real.pi ≠ 0 := Real.pi_ne_zero
  simp only [segProjParam]
  norm_num
  field_simp
  ring

lemma pointToSegment_equator (a l : ℝ) (h0 : 0 ≤ l) (h1 : l ≤ 1) :
    pointToSegmentDistanceMeters (a, l) ((0 : ℝ), (0 : ℝ)) ((0 : ℝ), (1 : ℝ)) =
      distanceMeters 0 l a l := by
  have hpi : Real.pi ≠ 0 := Real.pi_ne_zero
  simp only [pointToSegmentDistanceMeters]
  rw [if_neg (by norm_num)]
  rw [segProjParam_equator, min_eq_right h1, max_eq_right h0]
  have e1 : ((0 : ℝ) * Real.pi / 180 + l * ((0 : ℝ) * Real.pi / 180 - (0 : ℝ) * Real.pi / 180))
      * 180 / Real.pi = 0 := by
    field_simp
  have e2 : ((0 : ℝ) * Real.pi / 180 + l * ((1 : ℝ) * Real.pi / 180 - (0 : ℝ) * Real.pi / 180))
      * 180 / Real.pi = l := by
    field_simp
  rw [e1, e2]

lemma equator_seg_zero (l : ℝ) (h0 : 0 ≤ l) (h1 : l ≤ 1) :
    pointToSegmentDistanceMeters ((0 : ℝ), l) ((0 : ℝ), (0 : ℝ)) ((0 : ℝ), (1 : ℝ)) = 0 := by
  rw [pointToSegment_equator 0 l h0 h1]
  rw [distanceMeters_same_lon l 0 0 le_rfl (by norm_num)]
  ring

/-- The exact distance of a point at latitude `0.1` degrees from its
projection on the equator route: `6 371 000 · 0.1 · π / 180` meters. -/
noncomputable def farDist : ℝ := 6371000 * ((0.1 : ℝ) * Real.pi / 180)

lemma lt_farDist (x : ℝ) (hx : x ≤ 400) : x < farDist := by
  unfold farDist
  nlinarith [Real.pi_gt_three]

lemma equator_seg_far (l : ℝ) (h0 : 0 ≤ l) (h1 : l ≤ 1) :
    pointToSegmentDistanceMeters ((0.1 : ℝ), l) ((0 : ℝ), (0 : ℝ)) ((0 : ℝ), (1 : ℝ)) =
      farDist := by
  rw [pointToSegment_equator 0.1 l h0 h1]
  rw [distanceMeters_same_lon l 0 0.1 (by norm_num) (by norm_num)]
  unfold farDist
  norm_num

lemma nearest_eqRoute (p : Point) :
    nearestDistanceToPolylineMeters p eqRoutePoly =
      ENNReal.ofReal (pointToSegmentDistanceMeters p ((0 : ℝ), (0 : ℝ)) ((0 : ℝ), (1 : ℝ))) := by
  unfold nearestDistanceToPolylineMeters
  rw [show eqRoutePoly.zip eqRoutePoly.tail =
      [((((0 : ℝ), (0 : ℝ)) : Point), (((0 : ℝ), (1 : ℝ)) : Point))] from rfl]
  simp only [List.foldl_cons, List.foldl_nil]
  exact min_eq_right le_top

lemma nearest_eqRoute_on (l : ℝ) (h0 : 0 ≤ l) (h1 : l ≤ 1) :
    nearestDistanceToPolylineMeters ((0 : ℝ), l) eqRoutePoly = 0 := by
  rw [nearest_eqRoute, equator_seg_zero l h0 h1, ENNReal.ofReal_zero]

lemma nearest_eqRoute_far (l : ℝ) (h0 : 0 ≤ l) (h1 : l ≤ 1) :
    nearestDistanceToPolylineMeters ((0.1 : ℝ), l) eqRoutePoly = ENNReal.ofReal farDist := by
  rw [nearest_eqRoute, equator_seg_far l h0 h1]

lemma farDist_not_within : ¬ ENNReal.ofReal farDist ≤ ENNReal.ofReal (75 : ℝ) := by
  rw [ENNReal.ofReal_le_ofReal_iff (by norm_num)]
  push_neg
  exact lt_farDist 75 (by norm_num)

/- ===================== C4: fractionWithin monotonicity ===================== -/

lemma map_getD_range (l : List Point) :
    (List.range l.length).map (fun i => l.getD i (0, 0)) = l := by
  apply List.ext_get (by simp)
  intro n h1 h2
  simp only [List.get_map, List.get_range]
  exact List.getD_eq_get l (0, 0) h2

lemma samplePoints_id (trip : List Point) (L : ℕ) (h1 : 1 ≤ trip.length)
    (h2 : trip.length ≤ L) : samplePoints trip L = trip := by
  have hstep : max 1 (trip.length / L) = 1 := by
    have hdiv : trip.length / L ≤ 1 := by
      rcases Nat.eq_or_lt_of_le h2 with he | hl
      · rw [he, Nat.div_self (by omega)]
      · rw [Nat.div_eq_of_lt hl]
        omega
    exact max_eq_left hdiv
  simp only [samplePoints, sampleIndices]
  rw [hstep]
  have hfilter : (List.range trip.length).filter (fun i => i % 1 = 0) =
      List.range trip.length := by
    apply List.filter_eq_self.mpr
    intro a _
    simp [Nat.mod_one]
  rw [hfilter]
  have hlast : (List.range trip.length).getLast? = some (trip.length - 1) := by
    conv_lhs => rw [show trip.length = (trip.length - 1) + 1 from by omega, List.range_succ]
    rw [List.getLast?_concat]
  rw [if_pos hlast]
  exact map_getD_range trip

lemma withinCount_append (l1 l2 poly : List Point) (T : ℝ) :
    withinCount (l1 ++ l2) poly T = withinCount l1 poly T + withinCount l2 poly T := by
  unfold withinCount nearestList
  rw [List.map_append, List.countP_append]

/-- C4 (counterexample): appending an on-route point to a five-point trip
(four on the route, one 0.1° away) under `sampleLimit = 3` changes the
stride from 1 to 2, so the samples shift from all five points (4/5 within
threshold) to four points of which only three are within — the fraction
drops from 0.8 to 0.75 although the added point is within the threshold. -/
theorem fractionWithin_extend_decreases_cx :
    nearestDistanceToPolylineMeters ((0 : ℝ), (0.45 : ℝ)) eqRoutePoly ≤
      ENNReal.ofReal ((⟨some 3, none, none⟩ : MatchOptsIn).distThresholdMeters.getD 75) ∧
    tripFractionWithin
        ([((0 : ℝ), (0.1 : ℝ)), ((0 : ℝ), (0.2 : ℝ)), ((0.1 : ℝ), (0.5 : ℝ)),
          ((0 : ℝ), (0.3 : ℝ)), ((0 : ℝ), (0.4 : ℝ))] ++ [((0 : ℝ), (0.45 : ℝ))])
        eqRoutePoly ⟨some 3, none, none⟩ <
      tripFractionWithin
        [((0 : ℝ), (0.1 : ℝ)), ((0 : ℝ), (0.2 : ℝ)), ((0.1 : ℝ), (0.5 : ℝ)),
          ((0 : ℝ), (0.3 : ℝ)), ((0 : ℝ), (0.4 : ℝ))]
        eqRoutePoly ⟨some 3, none, none⟩ := by
  have e1 : nearestDistanceToPolylineMeters ((0 : ℝ), (0.1 : ℝ)) eqRoutePoly = 0 :=
    nearest_eqRoute_on 0.1 (by norm_num) (by norm_num)
  have e2 : nearestDistanceToPolylineMeters ((0 : ℝ), (0.2 : ℝ)) eqRoutePoly = 0 :=
    nearest_eqRoute_on 0.2 (by norm_num) (by norm_num)
  have e3 : nearestDistanceToPolylineMeters ((0.1 : ℝ), (0.5 : ℝ)) eqRoutePoly =
      ENNReal.ofReal farDist := nearest_eqRoute_far 0.5 (by norm_num) (by norm_num)
  have e4 : nearestDistanceToPolylineMeters ((0 : ℝ), (0.3 : ℝ)) eqRoutePoly = 0 :=
    nearest_eqRoute_on 0.3 (by norm_num) (by norm_num)
  have e5 : nearestDistanceToPolylineMeters ((0 : ℝ), (0.4 : ℝ)) eqRoutePoly = 0 :=
    nearest_eqRoute_on 0.4 (by norm_num) (by norm_num)
  have e6 : nearestDistanceToPolylineMeters ((0 : ℝ), (0.45 : ℝ)) eqRoutePoly = 0 :=
    nearest_eqRoute_on 0.45 (by norm_num) (by norm_num)
  refine ⟨by rw [e6]; exact zero_le _, ?_⟩
  have hs1 : samplePoints
      [((0 : ℝ), (0.1 : ℝ)), ((0 : ℝ), (0.2 : ℝ)), ((0.1 : ℝ), (0.5 : ℝ)),
        ((0 : ℝ), (0.3 : ℝ)), ((0 : ℝ), (0.4 : ℝ))] 3 =
      [((0 : ℝ), (0.1 : ℝ)), ((0 : ℝ), (0.2 : ℝ)), ((0.1 : ℝ), (0.5 : ℝ)),
        ((0 : ℝ), (0.3 : ℝ)), ((0 : ℝ), (0.4 : ℝ))] := by rfl
  have hs2 : samplePoints
      ([((0 : ℝ), (0.1 : ℝ)), ((0 : ℝ), (0.2 : ℝ)), ((0.1 : ℝ), (0.5 : ℝ)),
        ((0 : ℝ), (0.3 : ℝ)), ((0 : ℝ), (0.4 : ℝ))] ++ [((0 : ℝ), (0.45 : ℝ))]) 3 =
      [((0 : ℝ), (0.1 : ℝ)), ((0.1 : ℝ), (0.5 : ℝ)), ((0 : ℝ), (0.4 : ℝ)),
        ((0 : ℝ), (0.45 : ℝ))] := by rfl
  unfold tripFractionWithin
  rw [show ((⟨some 3, none, none⟩ : MatchOptsIn).sampleLimit.getD 60) = 3 from rfl,
    show ((⟨some 3, none, none⟩ : MatchOptsIn).distThresholdMeters.getD 75) = (75 : ℝ) from rfl,
    hs1, hs2]
  unfold fractionWithinOf withinCount nearestList
  simp only [List.map_cons, List.map_nil, List.countP_cons, List.countP_nil,
    e1, e2, e3, e4, e5, e6, decide_eq_true_eq]
  rw [if_pos (zero_le _), if_neg farDist_not_within]
  norm_num

/-- C4 (amended): appending points within `distThresholdMeters` of the
route never lowers `fractionWithin` *provided the extended trip still fits
inside `sampleLimit`* (so the stride stays 1 and no resampling occurs); in
general resampling may drop on-route points and lower the fraction, as the
counterexample shows. -/
theorem fractionWithin_extend_monotone (trip ext poly : List Point) (o : MatchOptsIn)
    (hwithin : ∀ q ∈ ext, nearestDistanceToPolylineMeters q poly ≤
      ENNReal.ofReal (o.distThresholdMeters.getD 75))
    (hn : 2 ≤ trip.length)
    (hle : trip.length + ext.length ≤ o.sampleLimit.getD 60) :
    tripFractionWithin trip poly o ≤ tripFractionWithin (trip ++ ext) poly o := by
  have h1 : samplePoints trip (o.sampleLimit.getD 60) = trip :=
    samplePoints_id trip _ (by omega) (by omega)
  have h2 : samplePoints (trip ++ ext) (o.sampleLimit.getD 60) = trip ++ ext := by
    apply samplePoints_id
    · rw [List.length_append]; omega
    · rw [List.length_append]; omega
  unfold tripFractionWithin
  rw [h1, h2]
  unfold fractionWithinOf
  rw [withinCount_append, List.length_append]
  have hext : withinCount ext poly (o.distThresholdMeters.getD 75) = ext.length := by
    unfold withinCount nearestList
    rw [← List.length_map ext (fun s => nearestDistanceToPolylineMeters s poly)]
    apply List.countP_eq_length.mpr
    intro d hd
    obtain ⟨q, hq, rfl⟩ := List.mem_map.mp hd
    simpa using hwithin q hq
  rw [hext]
  have hwc : withinCount trip poly (o.distThresholdMeters.getD 75) ≤ trip.length :=
    withinCount_le_length trip poly _
  have hn0 : (0 : ℝ) < (trip.length : ℝ) := by
    have : 0 < trip.length := by omega
    exact_mod_cast this
  have hnk0 : (0 : ℝ) < ((trip.length + ext.length : ℕ) : ℝ) := by
    have : 0 < trip.length + ext.length := by omega
    exact_mod_cast this
  rw [div_le_div_iff hn0 (by push_cast at hnk0 ⊢; linarith)]
  have hwcR : (withinCount trip poly (o.distThresholdMeters.getD 75) : ℝ) ≤
      (trip.length : ℝ) := by exact_mod_cast hwc
  have hkR : (0 : ℝ) ≤ (ext.length : ℝ) := by positivity
  push_cast
  nlinarith [hwcR, hkR]

/-- C4 (witness): the monotonicity theorem at the concrete on-route trip
extended by one on-route point under the default options. -/
theorem fractionWithin_extend_monotone_witness :
    nearestDistanceToPolylineMeters ((0 : ℝ), (0.5 : ℝ)) eqRoutePoly ≤
      ENNReal.ofReal (defaultOptsIn.distThresholdMeters.getD 75) ∧
    2 ≤ trip2.length ∧
    trip2.length + ([((0 : ℝ), (0.5 : ℝ))] : List Point).length ≤
      defaultOptsIn.sampleLimit.getD 60 ∧
    tripFractionWithin trip2 eqRoutePoly defaultOptsIn ≤
      tripFractionWithin (trip2 ++ [((0 : ℝ), (0.5 : ℝ))]) eqRoutePoly defaultOptsIn := by
  have hnear : nearestDistanceToPolylineMeters ((0 : ℝ), (0.5 : ℝ)) eqRoutePoly ≤
      ENNReal.ofReal (defaultOptsIn.distThresholdMeters.getD 75) := by
    rw [nearest_eqRoute_on 0.5 (by norm_num) (by norm_num)]
    exact zero_le _
  refine ⟨hnear, by norm_num [trip2], by norm_num [trip2, defaultOptsIn], ?_⟩
  apply fractionWithin_extend_monotone trip2 [((0 : ℝ), (0.5 : ℝ))] eqRoutePoly defaultOptsIn
  · intro q hq
    rw [List.mem_singleton.mp hq]
    exact hnear
  · norm_num [trip2]
  · norm_num [trip2, defaultOptsIn]

/- ===================== C6: sync candidates ===================== -/

lemma mem_keys_of_mem {d : ℕ} {g : List GpsPoint} {acc : List (ℕ × List GpsPoint)}
    (h : (d, g) ∈ acc) : d ∈ acc.map Prod.fst :=
  List.mem_map_of_mem Prod.fst h

lemma upsert_keys (k : ℕ) (p : GpsPoint) (acc : List (ℕ × List GpsPoint)) :
    (upsert k p acc).map Prod.fst =
      if k ∈ acc.map Prod.fst then acc.map Prod.fst else acc.map Prod.fst ++ [k] := by
  induction acc with
  | nil => simp [upsert]
  | cons hd t ih =>
    obtain ⟨k', g'⟩ := hd
    by_cases hkk : k' = k
    · subst hkk
      simp [upsert]
    · simp only [upsert, if_neg hkk, List.map_cons, ih]
      by_cases hkt : k ∈ t.map Prod.fst
      · rw [if_pos hkt, if_pos (by simp [hkt])]
      · rw [if_neg hkt,
          if_neg (by
            simp only [List.mem_cons]
            push_neg
            exact ⟨fun h => hkk h.symm, hkt⟩)]
        exact (List.cons_append _ _ _).symm

lemma upsert_nodup (k : ℕ) (p : GpsPoint) (acc : List (ℕ × List GpsPoint))
    (h : (acc.map Prod.fst).Nodup) : ((upsert k p acc).map Prod.fst).Nodup := by
  rw [upsert_keys]
  by_cases hk : k ∈ acc.map Prod.fst
  · rwa [if_pos hk]
  · rw [if_neg hk, List.nodup_append]
    refine ⟨h, List.nodup_singleton k, ?_⟩
    intro a ha hb
    rw [List.mem_singleton] at hb
    subst hb
    exact hk ha

lemma upsert_mem (k : ℕ) (p : GpsPoint) (acc : List (ℕ × List GpsPoint))
    (hnd : (acc.map Prod.fst).Nodup) (d : ℕ) (g : List GpsPoint) :
    (d, g) ∈ upsert k p acc ↔
      (d ≠ k ∧ (d, g) ∈ acc) ∨
      (d = k ∧ ∃ g₀, (k, g₀) ∈ acc ∧ g = g₀ ++ [p]) ∨
      (d = k ∧ k ∉ acc.map Prod.fst ∧ g = [p]) := by
  induction acc with
  | nil =>
    simp only [upsert, List.mem_singleton, List.not_mem_nil, List.map_nil, Prod.mk.injEq]
    constructor
    · rintro ⟨rfl, rfl⟩
      exact Or.inr (Or.inr ⟨rfl, by simp, rfl⟩)
    · rintro (⟨_, h⟩ | ⟨_, g₀, h, _⟩ | ⟨rfl, _, rfl⟩)
      · cases h
      · cases h
      · exact ⟨rfl, rfl⟩
  | cons hd t ih =>
    obtain ⟨k', g'⟩ := hd
    have hnds : (t.map Prod.fst).Nodup ∧ k' ∉ t.map Prod.fst := by
      rw [List.map_cons, List.nodup_cons] at hnd
      exact ⟨hnd.2, hnd.1⟩
    by_cases hkk : k' = k
    · subst hkk
      simp only [upsert, if_pos rfl]
      constructor
      · intro h
        rcases List.mem_cons.mp h with he | ht
        · rw [Prod.mk.injEq] at he
          obtain ⟨rfl, rfl⟩ := he
          exact Or.inr (Or.inl ⟨rfl, g', List.mem_cons_self _ _, rfl⟩)
        · by_cases hdk : d = k'
          · subst hdk
            exact absurd (mem_keys_of_mem ht) hnds.2
          · exact Or.inl ⟨hdk, List.mem_cons_of_mem _ ht⟩
      · rintro (⟨hdk, hmem⟩ | ⟨rfl, g₀, hg₀, rfl⟩ | ⟨rfl, hnk, rfl⟩)
        · rcases List.mem_cons.mp hmem with he | ht
          · rw [Prod.mk.injEq] at he
            exact absurd he.1 hdk
          · exact List.mem_cons_of_mem _ ht
        · rcases List.mem_cons.mp hg₀ with he | ht
          · rw [Prod.mk.injEq] at he
            obtain ⟨-, rfl⟩ := he
            exact List.mem_cons_self _ _
          · exact absurd (mem_keys_of_mem ht) hnds.2
        · exact absurd (by simp) hnk
    · simp only [upsert, if_neg hkk]
      constructor
      · intro h
        rcases List.mem_cons.mp h with he | ht
        · rw [Prod.mk.injEq] at he
          obtain ⟨rfl, rfl⟩ := he
          exact Or.inl ⟨hkk, List.mem_cons_self _ _⟩
        · rcases (ih hnds.1).mp ht with ⟨hdk, hmem⟩ | ⟨rfl, g₀, hg₀, rfl⟩ | ⟨rfl, hnk, rfl⟩
          · exact Or.inl ⟨hdk, List.mem_cons_of_mem _ hmem⟩
          · exact Or.inr (Or.inl ⟨rfl, g₀, List.mem_cons_of_mem _ hg₀, rfl⟩)
          · refine Or.inr (Or.inr ⟨rfl, ?_, rfl⟩)
            simp only [List.map_cons, List.mem_cons]
            push_neg
            exact ⟨fun hc => hkk hc.symm, hnk⟩
      · rintro (⟨hdk, hmem⟩ | ⟨rfl, g₀, hg₀, rfl⟩ | ⟨rfl, hnk, rfl⟩)
        · rcases List.mem_cons.mp hmem with he | ht
          · rw [he]
            exact List.mem_cons_self _ _
          · exact List.mem_cons_of_mem _ ((ih hnds.1).mpr (Or.inl ⟨hdk, ht⟩))
        · rcases List.mem_cons.mp hg₀ with he | ht
          · rw [Prod.mk.injEq] at he
            exact absurd he.1.symm hkk
          · exact List.mem_cons_of_mem _ ((ih hnds.1).mpr (Or.inr (Or.inl ⟨rfl, g₀, ht, rfl⟩)))
        · have hnk' : d ∉ t.map Prod.fst := by
            simp only [List.map_cons, List.mem_cons] at hnk
            push_neg at hnk
            exact hnk.2
          exact List.mem_cons_of_mem _ ((ih hnds.1).mpr (Or.inr (Or.inr ⟨rfl, hnk', rfl⟩)))

lemma groupFold_inv (pts : List GpsPoint) :
    ∀ (acc : List (ℕ × List GpsPoint)) (seen : List GpsPoint),
      (acc.map Prod.fst).Nodup →
      (∀ d g, (d, g) ∈ acc ↔ (g ≠ [] ∧ g = seen.filter (fun q => dayKey q = d))) →
      ((pts.foldl (fun a q => upsert (dayKey q) q a) acc).map Prod.fst).Nodup ∧
      (∀ d g, (d, g) ∈ pts.foldl (fun a q => upsert (dayKey q) q a) acc ↔
        (g ≠ [] ∧ g = (seen ++ pts).filter (fun q => dayKey q = d))) := by
  induction pts with
  | nil =>
    intro acc seen h1 h2
    refine ⟨h1, ?_⟩
    simpa using h2
  | cons p rest ih =>
    intro acc seen h1 h2
    have hstep2 : ∀ d g, (d, g) ∈ upsert (dayKey p) p acc ↔
        (g ≠ [] ∧ g = (seen ++ [p]).filter (fun q => dayKey q = d)) := by
      intro d g
      rw [upsert_mem _ _ _ h1, List.filter_append]
      by_cases hdp : dayKey p = d
      · rw [show List.filter (fun q => decide (dayKey q = d)) [p] = [p] from by simp [hdp]]
        constructor
        · rintro (⟨hdk, -⟩ | ⟨rfl, g₀, hg₀, rfl⟩ | ⟨rfl, hnk, rfl⟩)
          · exact absurd hdp.symm hdk
          · obtain ⟨-, hg₀e⟩ := (h2 _ _).mp hg₀
            exact ⟨by simp, by rw [hg₀e]⟩
          · have hfe : seen.filter (fun q => dayKey q = dayKey p) = [] := by
              by_contra hne
              have hmem := (h2 (dayKey p) _).mpr ⟨hne, rfl⟩
              exact hnk (mem_keys_of_mem hmem)
            rw [hfe]
            exact ⟨by simp, rfl⟩
        · rintro ⟨hne, hge⟩
          subst hdp
          by_cases hsf : seen.filter (fun q => dayKey q = dayKey p) = []
          · refine Or.inr (Or.inr ⟨rfl, ?_, ?_⟩)
            · intro hk
              obtain ⟨⟨d', g₀⟩, hmem, heq⟩ := List.mem_map.mp hk
              have hd' : d' = dayKey p := heq
              rw [hd'] at hmem
              obtain ⟨hne₀, hg₀e⟩ := (h2 (dayKey p) g₀).mp hmem
              rw [hsf] at hg₀e
              exact hne₀ hg₀e
            · rw [hsf] at hge
              simpa using hge
          · exact Or.inr (Or.inl ⟨rfl, seen.filter (fun q => dayKey q = dayKey p),
              (h2 _ _).mpr ⟨hsf, rfl⟩, by rw [hge]⟩)
      · rw [show List.filter (fun q => decide (dayKey q = d)) [p] = [] from by simp [hdp],
          List.append_nil]
        constructor
        · rintro (⟨-, hmem⟩ | ⟨rfl, -, -, -⟩ | ⟨rfl, -, -⟩)
          · exact (h2 _ _).mp hmem
          · exact absurd rfl hdp
          · exact absurd rfl hdp
        · intro hg
          exact Or.inl ⟨fun hc => hdp (by rw [hc]), (h2 _ _).mpr hg⟩
    have hstep1 := upsert_nodup (dayKey p) p acc h1
    have hres := ih (upsert (dayKey p) p acc) (seen ++ [p]) hstep1 hstep2
    refine ⟨hres.1, ?_⟩
    intro d g
    rw [show seen ++ p :: rest = (seen ++ [p]) ++ rest from by simp]
    exact hres.2 d g

lemma groupByDay_mem (pts : List GpsPoint) (d : ℕ) (g : List GpsPoint) :
    (d, g) ∈ groupByDay pts ↔ (g ≠ [] ∧ g = pts.filter (fun q => dayKey q = d)) := by
  have hbase : ∀ (d' : ℕ) (g' : List GpsPoint),
      ((d', g') ∈ ([] : List (ℕ × List GpsPoint)) ↔
        (g' ≠ [] ∧ g' = ([] : List GpsPoint).filter (fun q => dayKey q = d'))) := by
    intro d' g'
    constructor
    · intro h
      cases h
    · rintro ⟨hne, he⟩
      rw [List.filter_nil] at he
      exact absurd he hne
  have hres := (groupFold_inv pts [] [] (by simp) hbase).2 d g
  simpa [groupByDay] using hres

/-- C6: `syncCandidates` buckets the points by UTC calendar day, matches
each day's polyline, and reports exactly the days whose best score is
below `0.75` or that matched nothing, carrying the day's polyline and its
(possibly absent) candidate. -/
theorem syncCandidates_characterization (pts : List GpsPoint) (routes : List Route)
    (item : SyncItem) :
    item ∈ syncCandidates pts routes ↔
      ((∃ q ∈ pts, dayKey q = item.day) ∧
       item.polyline =
         (pts.filter (fun q => dayKey q = item.day)).map (fun q => (q.lat, q.lng)) ∧
       item.candidate = matchRoutes item.polyline routes defaultOptsIn ∧
       (item.candidate = none ∨ ∃ c, item.candidate = some c ∧ c.score < 0.75)) := by
  obtain ⟨iday, ipoly, icand⟩ := item
  simp only [syncCandidates, List.mem_filterMap]
  constructor
  · rintro ⟨⟨d, g⟩, hmem, hf⟩
    obtain ⟨hne, hge⟩ := (groupByDay_mem pts d g).mp hmem
    rcases hcand : matchRoutes (g.map (fun q => (q.lat, q.lng))) routes defaultOptsIn
      with - | c
    · simp only [hcand] at hf
      simp only [Option.some.injEq, SyncItem.mk.injEq] at hf
      obtain ⟨rfl, rfl, rfl⟩ := hf
      refine ⟨?_, ?_, hcand.symm, Or.inl rfl⟩
      · obtain ⟨q, hq⟩ := List.exists_mem_of_ne_nil g hne
        rw [hge] at hq
        have hqf := List.mem_filter.mp hq
        exact ⟨q, hqf.1, by simpa using hqf.2⟩
      · rw [hge]
    · simp only [hcand] at hf
      by_cases hsc : c.score < 0.75
      · rw [if_pos hsc] at hf
        simp only [Option.some.injEq, SyncItem.mk.injEq] at hf
        obtain ⟨rfl, rfl, rfl⟩ := hf
        refine ⟨?_, ?_, hcand.symm, Or.inr ⟨c, rfl, hsc⟩⟩
        · obtain ⟨q, hq⟩ := List.exists_mem_of_ne_nil g hne
          rw [hge] at hq
          have hqf := List.mem_filter.mp hq
          exact ⟨q, hqf.1, by simpa using hqf.2⟩
        · rw [hge]
      · rw [if_neg hsc] at hf
        simp at hf
  · rintro ⟨⟨q, hq, hqd⟩, hpoly, hcand, hthr⟩
    refine ⟨(iday, pts.filter (fun q' => dayKey q' = iday)), ?_, ?_⟩
    · apply (groupByDay_mem pts iday _).mpr
      refine ⟨?_, rfl⟩
      have hqmem : q ∈ pts.filter (fun q' => dayKey q' = iday) :=
        List.mem_filter.mpr ⟨hq, by simpa using hqd⟩
      exact List.ne_nil_of_mem hqmem
    · simp only
      rw [← hpoly, ← hcand]
      rcases hthr with hnone | ⟨c, hc, hsc⟩
      · simp only [hnone]
      · simp only [hc]
        rw [if_pos hsc]

end GeoTracker
